import Mathlib

/-!
Shallow embedding of `src/icons/generate_icons.py`: a minimal PNG encoder
(`make_png` with its inner `png_chunk`) and three icon pixel samplers.

Modelling conventions:
* bytes are natural numbers below 256, byte strings are `List Nat`;
* Python `int` channel values are modelled as `Int`;
* Python floats are modelled as real numbers, `math.sqrt` as `Real.sqrt`,
  and `int(...)` applied to the (non-negative) anti-aliasing value as
  `Int.floor`;
* `zlib.compress(raw, 9)` is an external library call; it is taken as a
  function parameter `deflate` throughout;
* `zlib.crc32` is implemented below (the standard CRC-32 algorithm);
* Python `bytes([r, g, b, a])` raises `ValueError` on a value outside
  [0, 255]; this fallibility is modelled with `Option`.
-/

namespace GenerateIcons

/-- Big-endian 4-byte serialization, as produced by `struct.pack` with the
format `>I` on a value below 2 ^ 32. -/
def be32 (n : Nat) : List Nat :=
  [n / 16777216 % 256, n / 65536 % 256, n / 256 % 256, n % 256]

/-- One bit step of the CRC-32 feedback shift (reflected polynomial
`0xEDB88320`), as used by `zlib.crc32`. -/
def crc32Step (c : Nat) : Nat :=
  if c % 2 = 1 then 0xEDB88320 ^^^ (c / 2) else c / 2

/-- Fold one data byte into the CRC-32 state. -/
def crc32Byte (c b : Nat) : Nat := crc32Step^[8] (c ^^^ b)

/-- `zlib.crc32(data) & 0xFFFFFFFF`: the standard CRC-32 of a byte string. -/
def crc32 (data : List Nat) : Nat :=
  (data.foldl crc32Byte 0xFFFFFFFF) ^^^ 0xFFFFFFFF

/-- The fixed 8-byte PNG signature `b'\x89PNG\r\n\x1a\n'`. -/
def pngSignature : List Nat := [0x89, 0x50, 0x4E, 0x47, 0x0D, 0x0A, 0x1A, 0x0A]

/-- The ASCII bytes of the chunk type tag `b'IHDR'`. -/
def IHDRtag : List Nat := [0x49, 0x48, 0x44, 0x52]

/-- The ASCII bytes of the chunk type tag `b'IDAT'`. -/
def IDATtag : List Nat := [0x49, 0x44, 0x41, 0x54]

/-- The ASCII bytes of the chunk type tag `b'IEND'`. -/
def IENDtag : List Nat := [0x49, 0x45, 0x4E, 0x44]

/-- `png_chunk(name, data)` from the source: big-endian payload length, type
tag and payload, big-endian CRC-32 of the tag and payload together. -/
def png_chunk (name data : List Nat) : List Nat :=
  let payload := name ++ data
  let crc := crc32 payload
  be32 data.length ++ payload ++ be32 crc

/-- Conversion of one Python int to a byte inside `bytes([...])`: a value
outside [0, 255] raises `ValueError`, modelled as `none`. -/
def pyByte (v : Int) : Option Nat :=
  if 0 ≤ v ∧ v ≤ 255 then some v.toNat else none

/-- `bytes([r, g, b, a])` applied to a pixel quadruple. -/
def pyBytes4 (p : Int × Int × Int × Int) : Option (List Nat) := do
  let r ← pyByte p.1
  let g ← pyByte p.2.1
  let b ← pyByte p.2.2.1
  let a ← pyByte p.2.2.2
  pure [r, g, b, a]

/-- The scanline-assembly loop of `make_png`: for each row one zero
filter-type byte, then the four channel bytes of each pixel in the row; a
`ValueError` raised by `bytes([...])` aborts the whole computation. -/
def pngRaw (width height : Nat) (pixel_fn : Nat → Nat → Int × Int × Int × Int) :
    Option (List Nat) :=
  (List.range height).foldlM (fun raw y =>
    (List.range width).foldlM (fun raw2 x => do
      let px ← pyBytes4 (pixel_fn x y)
      pure (raw2 ++ px)) (raw ++ [0])) []

/-- `struct.pack` of the IHDR payload: width, height, bit depth 8, color
type 6, compression method 0, filter method 0, interlace method 0. -/
def ihdrPayload (width height : Nat) : List Nat :=
  be32 width ++ be32 height ++ [8, 6, 0, 0, 0]

/-- `make_png(width, height, pixel_fn)` from the source, with the external
`zlib.compress(raw, 9)` passed as the parameter `deflate`. -/
def make_png (deflate : List Nat → List Nat) (width height : Nat)
    (pixel_fn : Nat → Nat → Int × Int × Int × Int) : Option (List Nat) := do
  let raw ← pngRaw width height pixel_fn
  let compressed := deflate raw
  let ihdr := ihdrPayload width height
  pure (pngSignature ++ png_chunk IHDRtag ihdr ++ png_chunk IDATtag compressed ++
    png_chunk IENDtag [])

/-- An in-range pixel quadruple: every channel an integer in [0, 255]. -/
def inRange4 (p : Int × Int × Int × Int) : Prop :=
  0 ≤ p.1 ∧ p.1 ≤ 255 ∧ 0 ≤ p.2.1 ∧ p.2.1 ≤ 255 ∧
    0 ≤ p.2.2.1 ∧ p.2.2.1 ≤ 255 ∧ 0 ≤ p.2.2.2 ∧ p.2.2.2 ≤ 255

instance (p : Int × Int × Int × Int) : Decidable (inRange4 p) := by
  unfold inRange4; infer_instance

/-- The four channel bytes of an in-range quadruple, in order red, green,
blue, alpha. -/
def bytes4 (p : Int × Int × Int × Int) : List Nat :=
  [p.1.toNat, p.2.1.toNat, p.2.2.1.toNat, p.2.2.2.toNat]

/-- The scanline buffer as the spec describes it: for each row, one
filter-type byte 0 followed by the RGBA quadruples of the row, rows in
order; used to compare the loop of `make_png` against the spec. -/
def rawSpec (width height : Nat) (pixel_fn : Nat → Nat → Int × Int × Int × Int) :
    List Nat :=
  (List.range height).flatMap (fun y =>
    0 :: (List.range width).flatMap (fun x => bytes4 (pixel_fn x y)))

/-- Read a big-endian 4-byte integer from the front of a byte stream. -/
def readBE32 : List Nat → Option (Nat × List Nat)
  | a :: b :: c :: d :: rest => some (((a * 256 + b) * 256 + c) * 256 + d, rest)
  | _ => none

/-- A conformant decoder's view of one chunk (modelled from the spec): parse
the length, type, payload and CRC fields, and check that the stored CRC-32
equals the CRC-32 of the type and payload together. -/
def parseChunk (s : List Nat) : Option ((List Nat × List Nat) × List Nat) := do
  let (len, r1) ← readBE32 s
  let typ := r1.take 4
  let r2 := r1.drop 4
  let payload := r2.take len
  let r3 := r2.drop len
  let (crcStored, r4) ← readBE32 r3
  if typ.length = 4 ∧ payload.length = len ∧ crcStored = crc32 (typ ++ payload) then
    pure ((typ, payload), r4)
  else
    none

/-- A conformant decoder (modelled from the spec): check the signature, parse
exactly the three chunks IHDR, IDAT, IEND, read the dimensions and the fixed
trailing IHDR fields, and inflate the IDAT payload. -/
def decodePNG (inflate : List Nat → List Nat) (s : List Nat) :
    Option (Nat × Nat × List Nat) := do
  if s.take 8 = pngSignature then
    let ((t1, ihdr), r1) ← parseChunk (s.drop 8)
    let ((t2, idat), r2) ← parseChunk r1
    let ((t3, iend), r3) ← parseChunk r2
    let (w, i1) ← readBE32 ihdr
    let (h, i2) ← readBE32 i1
    if t1 = IHDRtag ∧ t2 = IDATtag ∧ t3 = IENDtag ∧ iend = [] ∧ r3 = [] ∧
        i2 = [8, 6, 0, 0, 0] then
      pure (w, h, inflate idat)
    else none
  else none

/-- The four channel bytes of the pixel at (x, y) of a decoded PNG (modelled
from the spec). -/
def decodePixel (inflate : List Nat → List Nat) (s : List Nat) (x y : Nat) :
    Option (List Nat) := do
  let (w, h, raw) ← decodePNG inflate s
  if x < w ∧ y < h then
    pure ((raw.drop (y * (1 + 4 * w) + 1 + 4 * x)).take 4)
  else none

/-- Parse the 13-byte IHDR payload back into width, height, bit depth and
color type (modelled from the spec). -/
def parseIHDR (p : List Nat) : Option (Nat × Nat × Nat × Nat) := do
  let (w, r1) ← readBE32 p
  let (h, r2) ← readBE32 r1
  match r2 with
  | [bd, ct, _, _, _] => pure (w, h, bd, ct)
  | _ => none

/-- `SIZE = 48` from the source. -/
def SIZE : Nat := 48

open Classical in
/-- `circle_aa(cx, cy, r, color, x, y)`: anti-aliased circle test.  In the
middle branch the value `(r + 0.5 - dist) * 255` is non-negative, so Python's
truncating `int(...)` agrees with `Int.floor` there. -/
noncomputable def circle_aa (cx cy r : ℝ) (color : Int × Int × Int) (x y : ℝ) :
    Int × Int × Int × Int :=
  let dx := x - cx
  let dy := y - cy
  let dist := Real.sqrt (dx * dx + dy * dy)
  if dist ≤ r - 0.5 then
    (color.1, color.2.1, color.2.2, 255)
  else if dist ≤ r + 0.5 then
    (color.1, color.2.1, color.2.2, Int.floor ((r + 0.5 - dist) * 255))
  else
    (0, 0, 0, 0)

/-- The pixel function built by `make_recording` (filled red circle of radius
`SIZE / 2 - 4 = 20` centred at `(24, 24)`). -/
noncomputable def recordingPixel (x y : Nat) : Int × Int × Int × Int :=
  circle_aa ((SIZE : ℝ) / 2) ((SIZE : ℝ) / 2) ((SIZE : ℝ) / 2 - 4)
    (220, 50, 50) (x : ℝ) (y : ℝ)

/-- `make_recording()` from the source, with `zlib.compress` as parameter. -/
noncomputable def make_recording (deflate : List Nat → List Nat) :
    Option (List Nat) :=
  make_png deflate SIZE SIZE recordingPixel

open Classical in
/-- The pixel function built by `make_idle` (gray microphone silhouette). -/
noncomputable def idlePixel (x y : Nat) : Int × Int × Int × Int :=
  let cx : ℝ := (SIZE : ℝ) / 2
  let cy : ℝ := (SIZE : ℝ) / 2
  let body_w : ℝ := 14
  let body_h : ℝ := 18
  let body_x0 := cx - body_w / 2
  let body_y0 := cy - body_h / 2 - 4
  let body_r := body_w / 2
  let post_w : ℝ := 3
  let post_h : ℝ := 8
  let post_x0 := cx - post_w / 2
  let post_y0 := cy + body_h / 2 - 4
  let base_w : ℝ := 16
  let base_h : ℝ := 3
  let base_x0 := cx - base_w / 2
  let base_y0 := post_y0 + post_h - 1
  let xr : ℝ := (x : ℝ)
  let yr : ℝ := (y : ℝ)
  let in_body_rect := body_x0 + body_r ≤ xr ∧ xr ≤ body_x0 + body_w - body_r ∧
    body_y0 ≤ yr ∧ yr ≤ body_y0 + body_h
  let in_body_full := body_x0 ≤ xr ∧ xr ≤ body_x0 + body_w ∧
    body_y0 + body_r ≤ yr ∧ yr ≤ body_y0 + body_h - body_r
  let top_circle := Real.sqrt ((xr - cx) ^ 2 + (yr - (body_y0 + body_r)) ^ 2) ≤ body_r
  let bot_circle :=
    Real.sqrt ((xr - cx) ^ 2 + (yr - (body_y0 + body_h - body_r)) ^ 2) ≤ body_r
  let in_body := in_body_rect ∨ in_body_full ∨ top_circle ∨ bot_circle
  let in_post := post_x0 ≤ xr ∧ xr ≤ post_x0 + post_w ∧
    post_y0 ≤ yr ∧ yr ≤ post_y0 + post_h
  let in_base := base_x0 ≤ xr ∧ xr ≤ base_x0 + base_w ∧
    base_y0 ≤ yr ∧ yr ≤ base_y0 + base_h
  let arm_r : ℝ := 11
  let arm_cx := cx
  let arm_cy := post_y0
  let arm_dist := Real.sqrt ((xr - arm_cx) ^ 2 + (yr - arm_cy) ^ 2)
  let in_arm_ring := |arm_dist - arm_r| ≤ 1.5 ∧ yr ≤ arm_cy ∧
    arm_cx - arm_r - 1 ≤ xr ∧ xr ≤ arm_cx + arm_r + 1
  if in_body ∨ in_post ∨ in_base ∨ in_arm_ring then (130, 130, 140, 255)
  else (0, 0, 0, 0)

/-- `make_idle()` from the source, with `zlib.compress` as parameter. -/
noncomputable def make_idle (deflate : List Nat → List Nat) : Option (List Nat) :=
  make_png deflate SIZE SIZE idlePixel

/-- `rounded_rect` from `make_paused`: clamped distance to the core rectangle
is at most the corner radius. -/
noncomputable def rounded_rect (x y rx ry rw rh r : ℝ) : Prop :=
  let dx := max (rx - x) (max 0 (x - (rx + rw)))
  let dy := max (ry - y) (max 0 (y - (ry + rh)))
  Real.sqrt (dx * dx + dy * dy) ≤ r

open Classical in
/-- The pixel function built by `make_paused` (two rounded yellow bars). -/
noncomputable def pausedPixel (x y : Nat) : Int × Int × Int × Int :=
  let bar_w : Nat := 9
  let bar_h : Nat := 24
  let gap : Nat := 8
  let top : Nat := (SIZE - bar_h) / 2
  let total_w := bar_w * 2 + gap
  let left1 := (SIZE - total_w) / 2
  let left2 := left1 + bar_w + gap
  let bar_r : ℝ := 3
  let in_bar1 := rounded_rect (x : ℝ) (y : ℝ) (left1 : ℝ) (top : ℝ)
    (bar_w : ℝ) (bar_h : ℝ) bar_r
  let in_bar2 := rounded_rect (x : ℝ) (y : ℝ) (left2 : ℝ) (top : ℝ)
    (bar_w : ℝ) (bar_h : ℝ) bar_r
  if in_bar1 ∨ in_bar2 then (230, 190, 40, 255)
  else (0, 0, 0, 0)

/-- `make_paused()` from the source, with `zlib.compress` as parameter. -/
noncomputable def make_paused (deflate : List Nat → List Nat) : Option (List Nat) :=
  make_png deflate SIZE SIZE pausedPixel

/-! ### Auxiliary lemmas about the byte-level primitives -/

theorem be32_length (n : Nat) : (be32 n).length = 4 := rfl

theorem be32_bytes_lt (n : Nat) : ∀ b ∈ be32 n, b < 256 := by
  intro b hb
  simp only [be32, List.mem_cons, List.not_mem_nil, or_false] at hb
  rcases hb with rfl | rfl | rfl | rfl <;> exact Nat.mod_lt _ (by norm_num)

theorem readBE32_be32 (n : Nat) (hn : n < 4294967296) (r : List Nat) :
    readBE32 (be32 n ++ r) = some (n, r) := by
  simp only [be32, List.cons_append, List.nil_append, readBE32,
    Option.some.injEq, Prod.mk.injEq]
  exact ⟨by omega, trivial⟩

theorem crc32Step_lt (c : Nat) (hc : c < 4294967296) : crc32Step c < 4294967296 := by
  have h32 : (4294967296 : Nat) = 2 ^ 32 := by norm_num
  unfold crc32Step
  split
  · rw [h32]
    exact Nat.xor_lt_two_pow (by norm_num) (by omega)
  · omega

theorem crc32Step_iter_lt (m c : Nat) (hc : c < 4294967296) :
    crc32Step^[m] c < 4294967296 := by
  induction m generalizing c with
  | zero => simpa using hc
  | succ k ih =>
    rw [Function.iterate_succ_apply]
    exact ih _ (crc32Step_lt c hc)

theorem crc32Byte_lt (c b : Nat) (hc : c < 4294967296) (hb : b < 256) :
    crc32Byte c b < 4294967296 := by
  have h32 : (4294967296 : Nat) = 2 ^ 32 := by norm_num
  unfold crc32Byte
  exact crc32Step_iter_lt 8 _ (by rw [h32]; exact Nat.xor_lt_two_pow (by omega) (by omega))

theorem crc32_lt (data : List Nat) (h : ∀ b ∈ data, b < 256) :
    crc32 data < 4294967296 := by
  have h32 : (4294967296 : Nat) = 2 ^ 32 := by norm_num
  have hfold : ∀ (l : List Nat) (c : Nat), c < 4294967296 → (∀ b ∈ l, b < 256) →
      l.foldl crc32Byte c < 4294967296 := by
    intro l
    induction l with
    | nil => intro c hc _; simpa using hc
    | cons a as ih =>
      intro c hc hl
      rw [List.foldl_cons]
      exact ih _ (crc32Byte_lt c a hc (hl a (by simp))) (fun b hb => hl b (by simp [hb]))
  unfold crc32
  rw [h32]
  exact Nat.xor_lt_two_pow (by rw [← h32]; exact hfold data _ (by norm_num) h) (by norm_num)

theorem bytes4_length (p : Int × Int × Int × Int) : (bytes4 p).length = 4 := rfl

theorem bytes4_bytes_lt (p : Int × Int × Int × Int) (h : inRange4 p) :
    ∀ b ∈ bytes4 p, b < 256 := by
  obtain ⟨h1, h2, h3, h4, h5, h6, h7, h8⟩ := h
  intro b hb
  simp only [bytes4, List.mem_cons, List.not_mem_nil, or_false] at hb
  rcases hb with rfl | rfl | rfl | rfl <;> omega

theorem pyBytes4_some (p : Int × Int × Int × Int) (h : inRange4 p) :
    pyBytes4 p = some (bytes4 p) := by
  obtain ⟨h1, h2, h3, h4, h5, h6, h7, h8⟩ := h
  simp [pyBytes4, pyByte, bytes4, h1, h2, h3, h4, h5, h6, h7, h8]

theorem pyBytes4_none (p : Int × Int × Int × Int) (h : ¬ inRange4 p) :
    pyBytes4 p = none := by
  unfold inRange4 at h
  simp only [pyBytes4, pyByte]
  split_ifs <;> simp_all

/-! ### Chunk serialization and parsing -/

theorem png_chunk_eq (name data : List Nat) :
    png_chunk name data =
      be32 data.length ++ name ++ data ++ be32 (crc32 (name ++ data)) := by
  simp [png_chunk, List.append_assoc]

theorem parseChunk_png_chunk (name data rest : List Nat)
    (hname : name.length = 4) (hlen : data.length < 4294967296)
    (hbytes : ∀ b ∈ name ++ data, b < 256) :
    parseChunk (png_chunk name data ++ rest) = some ((name, data), rest) := by
  have hcrc : crc32 (name ++ data) < 4294967296 := crc32_lt _ hbytes
  have hshape : png_chunk name data ++ rest =
      be32 data.length ++ (name ++ (data ++ (be32 (crc32 (name ++ data)) ++ rest))) := by
    simp [png_chunk, List.append_assoc]
  rw [hshape]
  unfold parseChunk
  rw [readBE32_be32 _ hlen]
  simp only [Option.bind_eq_bind, Option.some_bind]
  rw [List.take_left' hname, List.drop_left' hname, List.take_left, List.drop_left,
    readBE32_be32 _ hcrc]
  simp [hname]

/-! ### The scanline loop versus the spec-shaped buffer -/

theorem rowFold_eq (f : Nat → Nat → Int × Int × Int × Int) (y : Nat)
    (xs : List Nat) (acc : List Nat) (h : ∀ x ∈ xs, inRange4 (f x y)) :
    (xs.foldlM (fun raw2 x => do
        let px ← pyBytes4 (f x y)
        pure (raw2 ++ px)) acc : Option (List Nat))
      = some (acc ++ xs.flatMap (fun x => bytes4 (f x y))) := by
  induction xs generalizing acc with
  | nil => simp
  | cons a as ih =>
    rw [List.foldlM_cons]
    rw [pyBytes4_some _ (h a (by simp))]
    simp only [Option.bind_eq_bind, Option.some_bind, Option.pure_def,
      Option.bind_some] at ih ⊢
    rw [ih (acc ++ bytes4 (f a y)) (fun x hx => h x (by simp [hx]))]
    simp [List.flatMap_cons, List.append_assoc]

theorem pngFold_eq (f : Nat → Nat → Int × Int × Int × Int) (width : Nat)
    (ys : List Nat) (acc : List Nat)
    (h : ∀ y ∈ ys, ∀ x ∈ List.range width, inRange4 (f x y)) :
    (ys.foldlM (fun raw y =>
        (List.range width).foldlM (fun raw2 x => do
          let px ← pyBytes4 (f x y)
          pure (raw2 ++ px)) (raw ++ [0])) acc : Option (List Nat))
      = some (acc ++ ys.flatMap (fun y =>
          0 :: (List.range width).flatMap (fun x => bytes4 (f x y)))) := by
  induction ys generalizing acc with
  | nil => simp
  | cons a as ih =>
    rw [List.foldlM_cons]
    rw [rowFold_eq f a (List.range width) (acc ++ [0]) (h a (by simp))]
    simp only [Option.bind_eq_bind, Option.some_bind, Option.pure_def,
      Option.bind_some] at ih ⊢
    rw [ih _ (fun y hy => h y (by simp [hy]))]
    simp [List.flatMap_cons, List.append_assoc]

theorem pngRaw_eq_rawSpec (width height : Nat)
    (f : Nat → Nat → Int × Int × Int × Int)
    (hr : ∀ x < width, ∀ y < height, inRange4 (f x y)) :
    pngRaw width height f = some (rawSpec width height f) := by
  unfold pngRaw rawSpec
  rw [pngFold_eq f width (List.range height) []
    (fun y hy x hx => hr x (List.mem_range.mp hx) y (List.mem_range.mp hy))]
  simp

theorem flatMap_bytes4_length (g : Nat → Int × Int × Int × Int) (xs : List Nat) :
    (xs.flatMap (fun x => bytes4 (g x))).length = 4 * xs.length := by
  induction xs with
  | nil => simp
  | cons a as ih =>
    simp only [List.flatMap_cons, List.length_append, ih, bytes4_length,
      List.length_cons]
    ring

theorem rawRows_length (width : Nat) (g : Nat → Nat → Int × Int × Int × Int)
    (ys : List Nat) :
    (ys.flatMap (fun y =>
        0 :: (List.range width).flatMap (fun x => bytes4 (g x y)))).length
      = ys.length * (1 + 4 * width) := by
  induction ys with
  | nil => simp
  | cons a as ih =>
    simp only [List.flatMap_cons, List.length_append, List.length_cons,
      flatMap_bytes4_length, List.length_range, ih]
    ring

theorem rawSpec_length (width height : Nat) (f : Nat → Nat → Int × Int × Int × Int) :
    (rawSpec width height f).length = height * (1 + 4 * width) := by
  unfold rawSpec
  rw [rawRows_length]
  simp

theorem flatMap_drop_const {α β : Type} (g : α → List β) (L : Nat)
    (xs : List α) (hg : ∀ x ∈ xs, (g x).length = L) :
    ∀ i (hi : i < xs.length),
      (xs.flatMap g).drop (i * L)
        = g (xs.get ⟨i, hi⟩) ++ (xs.drop (i + 1)).flatMap g := by
  induction xs with
  | nil => intro i hi; simp at hi
  | cons a as ih =>
    intro i hi
    cases i with
    | zero => simp [List.flatMap_cons]
    | succ j =>
      have hLa : (g a).length = L := hg a (by simp)
      have hidx : (j + 1) * L = (g a).length + j * L := by rw [hLa]; ring
      rw [List.flatMap_cons, hidx, List.drop_append]
      exact ih (fun x hx => hg x (by simp [hx])) j (by simpa using hi)

theorem rawSpec_pixel (width height : Nat) (f : Nat → Nat → Int × Int × Int × Int)
    (x y : Nat) (hx : x < width) (hy : y < height) :
    ((rawSpec width height f).drop (y * (1 + 4 * width) + 1 + 4 * x)).take 4
      = bytes4 (f x y) := by
  unfold rawSpec
  have hrowlen : ∀ z ∈ List.range height,
      ((fun z => 0 :: (List.range width).flatMap (fun x => bytes4 (f x z))) z).length
        = 1 + 4 * width := by
    intro z _
    simp only [List.length_cons, flatMap_bytes4_length, List.length_range]
    omega
  have hy' : y < (List.range height).length := by simpa using hy
  have hdrop1 : List.drop (y * (1 + 4 * width))
        ((List.range height).flatMap
          (fun z => 0 :: (List.range width).flatMap (fun x => bytes4 (f x z))))
      = (0 :: (List.range width).flatMap (fun x => bytes4 (f x y)))
          ++ ((List.range height).drop (y + 1)).flatMap
            (fun z => 0 :: (List.range width).flatMap (fun x => bytes4 (f x z))) := by
    have h0 := flatMap_drop_const
      (fun z => 0 :: (List.range width).flatMap (fun x => bytes4 (f x z)))
      (1 + 4 * width) (List.range height) hrowlen y hy'
    rwa [List.get_range] at h0
  have hsplit : y * (1 + 4 * width) + 1 + 4 * x
      = y * (1 + 4 * width) + (1 + 4 * x) := by ring
  rw [hsplit, ← List.drop_drop, hdrop1]
  have hxle : 4 * x ≤ ((List.range width).flatMap (fun x => bytes4 (f x y))).length := by
    rw [flatMap_bytes4_length]
    simp only [List.length_range]
    omega
  have hstep2 : List.drop (1 + 4 * x)
        ((0 :: (List.range width).flatMap (fun x => bytes4 (f x y)))
          ++ ((List.range height).drop (y + 1)).flatMap
            (fun z => 0 :: (List.range width).flatMap (fun x => bytes4 (f x z))))
      = List.drop (4 * x) ((List.range width).flatMap (fun x => bytes4 (f x y)))
          ++ ((List.range height).drop (y + 1)).flatMap
            (fun z => 0 :: (List.range width).flatMap (fun x => bytes4 (f x z))) := by
    simp only [List.cons_append]
    rw [show 1 + 4 * x = 4 * x + 1 by ring, List.drop_succ_cons,
      List.drop_append_of_le_length hxle]
  rw [hstep2]
  have hx' : x < (List.range width).length := by simpa using hx
  have hdrop2 : List.drop (x * 4) ((List.range width).flatMap (fun x => bytes4 (f x y)))
      = bytes4 (f x y)
        ++ ((List.range width).drop (x + 1)).flatMap (fun x => bytes4 (f x y)) := by
    have h0 := flatMap_drop_const (fun x => bytes4 (f x y)) 4 (List.range width)
      (fun z _ => bytes4_length _) x hx'
    rwa [List.get_range] at h0
  rw [show 4 * x = x * 4 by ring, hdrop2, List.append_assoc,
    List.take_left' (bytes4_length _)]

/-! ### Failure propagation and congruence of the scanline loop -/

theorem foldlM_of_bad {σ α : Type} (step : σ → α → Option σ) (x0 : α)
    (hx0 : ∀ acc, step acc x0 = none) :
    ∀ (xs : List α), x0 ∈ xs → ∀ acc, xs.foldlM step acc = none := by
  intro xs
  induction xs with
  | nil => intro h; simp at h
  | cons a as ih =>
    intro hmem acc
    rw [List.foldlM_cons]
    rcases List.mem_cons.mp hmem with rfl | hmem2
    · rw [hx0 acc]
      rfl
    · cases hstep : step acc a with
      | none => rfl
      | some acc2 =>
        simp only [Option.bind_eq_bind, Option.some_bind]
        exact ih hmem2 acc2

theorem pngRaw_none (width height : Nat) (f : Nat → Nat → Int × Int × Int × Int)
    (x0 y0 : Nat) (hx : x0 < width) (hy : y0 < height)
    (hbad : ¬ inRange4 (f x0 y0)) :
    pngRaw width height f = none := by
  unfold pngRaw
  have hinner : ∀ acc : List Nat,
      ((List.range width).foldlM (fun raw2 x => do
        let px ← pyBytes4 (f x y0)
        pure (raw2 ++ px)) acc : Option (List Nat)) = none := by
    intro acc
    refine foldlM_of_bad _ x0 ?_ _ (List.mem_range.mpr hx) acc
    intro acc2
    rw [pyBytes4_none _ hbad]
    rfl
  refine foldlM_of_bad _ y0 ?_ _ (List.mem_range.mpr hy) []
  intro acc
  exact hinner (acc ++ [0])

theorem foldlM_congr {σ α : Type} (s t : σ → α → Option σ) (xs : List α)
    (h : ∀ acc, ∀ x ∈ xs, s acc x = t acc x) :
    ∀ acc, xs.foldlM s acc = xs.foldlM t acc := by
  induction xs with
  | nil => intro acc; rfl
  | cons a as ih =>
    intro acc
    rw [List.foldlM_cons, List.foldlM_cons, h acc a (by simp)]
    cases t acc a with
    | none => rfl
    | some acc2 =>
      simp only [Option.bind_eq_bind, Option.some_bind]
      exact ih (fun acc2 x hx => h acc2 x (by simp [hx])) acc2

theorem pngRaw_congr (width height : Nat)
    (f g : Nat → Nat → Int × Int × Int × Int)
    (hfg : ∀ x < width, ∀ y < height, f x y = g x y) :
    pngRaw width height f = pngRaw width height g := by
  unfold pngRaw
  refine foldlM_congr _ _ _ ?_ []
  intro acc y hy
  refine foldlM_congr _ _ _ ?_ (acc ++ [0])
  intro acc2 x hx
  rw [hfg x (List.mem_range.mp hx) y (List.mem_range.mp hy)]

/-! ### The assembled stream -/

theorem make_png_eq (deflate : List Nat → List Nat) (width height : Nat)
    (f : Nat → Nat → Int × Int × Int × Int)
    (hr : ∀ x < width, ∀ y < height, inRange4 (f x y)) :
    make_png deflate width height f
      = some (pngSignature ++ png_chunk IHDRtag (ihdrPayload width height)
          ++ png_chunk IDATtag (deflate (rawSpec width height f))
          ++ png_chunk IENDtag []) := by
  unfold make_png
  rw [pngRaw_eq_rawSpec width height f hr]
  simp [List.append_assoc]

theorem ihdrPayload_bytes_lt (width height : Nat) :
    ∀ b ∈ ihdrPayload width height, b < 256 := by
  intro b hb
  simp only [ihdrPayload, List.mem_append, List.mem_cons, List.not_mem_nil,
    or_false] at hb
  rcases hb with (hb | hb) | hb
  · exact be32_bytes_lt _ b hb
  · exact be32_bytes_lt _ b hb
  · rcases hb with rfl | rfl | rfl | rfl | rfl <;> norm_num

theorem decodePNG_encode (inflate deflate : List Nat → List Nat)
    (width height : Nat) (raw : List Nat)
    (hw : width < 4294967296) (hh : height < 4294967296)
    (hbytes : ∀ b ∈ deflate raw, b < 256)
    (hlen : (deflate raw).length < 4294967296) :
    decodePNG inflate (pngSignature ++ png_chunk IHDRtag (ihdrPayload width height)
        ++ png_chunk IDATtag (deflate raw) ++ png_chunk IENDtag [])
      = some (width, height, inflate (deflate raw)) := by
  have hihdr : parseChunk (png_chunk IHDRtag (ihdrPayload width height)
      ++ (png_chunk IDATtag (deflate raw) ++ png_chunk IENDtag []))
      = some ((IHDRtag, ihdrPayload width height),
          png_chunk IDATtag (deflate raw) ++ png_chunk IENDtag []) := by
    refine parseChunk_png_chunk _ _ _ rfl (by simp [ihdrPayload, be32]) ?_
    intro b hb
    rcases List.mem_append.mp hb with hb | hb
    · simp only [IHDRtag, List.mem_cons, List.not_mem_nil, or_false] at hb
      rcases hb with rfl | rfl | rfl | rfl <;> norm_num
    · exact ihdrPayload_bytes_lt _ _ b hb
  have hidat : parseChunk (png_chunk IDATtag (deflate raw) ++ png_chunk IENDtag [])
      = some ((IDATtag, deflate raw), png_chunk IENDtag []) := by
    refine parseChunk_png_chunk _ _ _ rfl hlen ?_
    intro b hb
    rcases List.mem_append.mp hb with hb | hb
    · simp only [IDATtag, List.mem_cons, List.not_mem_nil, or_false] at hb
      rcases hb with rfl | rfl | rfl | rfl <;> norm_num
    · exact hbytes b hb
  have hiend : parseChunk (png_chunk IENDtag []) = some ((IENDtag, []), []) := by
    have h0 := parseChunk_png_chunk IENDtag [] [] rfl (by norm_num) ?_
    · simpa using h0
    · intro b hb
      simp only [List.append_nil, IENDtag, List.mem_cons, List.not_mem_nil,
        or_false] at hb
      rcases hb with rfl | rfl | rfl | rfl <;> norm_num
  have hshape : pngSignature ++ png_chunk IHDRtag (ihdrPayload width height)
        ++ png_chunk IDATtag (deflate raw) ++ png_chunk IENDtag []
      = pngSignature ++ (png_chunk IHDRtag (ihdrPayload width height)
          ++ (png_chunk IDATtag (deflate raw) ++ png_chunk IENDtag [])) := by
    simp [List.append_assoc]
  unfold decodePNG
  rw [hshape, List.take_left' (show pngSignature.length = 8 from rfl),
    List.drop_left' (show pngSignature.length = 8 from rfl)]
  rw [if_pos rfl]
  rw [hihdr]
  simp only [Option.bind_eq_bind, Option.some_bind]
  rw [hidat]
  simp only [Option.some_bind]
  rw [hiend]
  simp only [Option.some_bind]
  have hreadw : readBE32 (ihdrPayload width height)
      = some (width, be32 height ++ [8, 6, 0, 0, 0]) := by
    have h0 := readBE32_be32 width hw (be32 height ++ [8, 6, 0, 0, 0])
    rw [ihdrPayload, List.append_assoc]
    exact h0
  rw [hreadw]
  simp only [Option.some_bind]
  rw [readBE32_be32 height hh]
  simp

theorem decodePixel_encode (inflate deflate : List Nat → List Nat)
    (width height : Nat) (f : Nat → Nat → Int × Int × Int × Int) (x y : Nat)
    (hw : width < 4294967296) (hh : height < 4294967296)
    (hbytes : ∀ b ∈ deflate (rawSpec width height f), b < 256)
    (hlen : (deflate (rawSpec width height f)).length < 4294967296)
    (hinv : inflate (deflate (rawSpec width height f)) = rawSpec width height f)
    (hx : x < width) (hy : y < height) :
    decodePixel inflate (pngSignature ++ png_chunk IHDRtag (ihdrPayload width height)
        ++ png_chunk IDATtag (deflate (rawSpec width height f))
        ++ png_chunk IENDtag []) x y
      = some (bytes4 (f x y)) := by
  unfold decodePixel
  rw [decodePNG_encode inflate deflate width height (rawSpec width height f)
    hw hh hbytes hlen]
  simp only [Option.bind_eq_bind, Option.some_bind]
  rw [if_pos ⟨hx, hy⟩, hinv, rawSpec_pixel width height f x y hx hy]
  rfl

theorem rawSpec_bytes_lt (width height : Nat)
    (f : Nat → Nat → Int × Int × Int × Int)
    (hr : ∀ x < width, ∀ y < height, inRange4 (f x y)) :
    ∀ b ∈ rawSpec width height f, b < 256 := by
  intro b hb
  unfold rawSpec at hb
  simp only [List.mem_flatMap, List.mem_range, List.mem_cons] at hb
  obtain ⟨y, hy, hb⟩ := hb
  rcases hb with rfl | hb
  · norm_num
  · obtain ⟨x, hx, hb⟩ := hb
    exact bytes4_bytes_lt _ (hr x hx y hy) b hb

/-! ### Degenerate dimensions -/

theorem flatMap_single_zero (xs : List Nat) :
    (xs.flatMap (fun _ => [(0 : Nat)])) = List.replicate xs.length 0 := by
  induction xs with
  | nil => rfl
  | cons a as ih => simp [List.flatMap_cons, ih, List.replicate_succ]

theorem rawSpec_width_zero (height : Nat) (f : Nat → Nat → Int × Int × Int × Int) :
    rawSpec 0 height f = List.replicate height 0 := by
  unfold rawSpec
  have h0 : (fun y => 0 :: (List.range 0).flatMap (fun x => bytes4 (f x y)))
      = fun _ : Nat => [(0 : Nat)] := by
    funext y
    simp
  rw [h0, flatMap_single_zero]
  simp

theorem rawSpec_height_zero (width : Nat) (f : Nat → Nat → Int × Int × Int × Int) :
    rawSpec width 0 f = [] := by
  simp [rawSpec]

/-! ### The icon pixel functions -/

theorem circle_aa_inRange (cx cy r : ℝ) (color : Int × Int × Int) (x y : ℝ)
    (h1 : 0 ≤ color.1) (h2 : color.1 ≤ 255) (h3 : 0 ≤ color.2.1)
    (h4 : color.2.1 ≤ 255) (h5 : 0 ≤ color.2.2) (h6 : color.2.2 ≤ 255) :
    inRange4 (circle_aa cx cy r color x y) := by
  unfold circle_aa
  dsimp only
  split_ifs with hA hB
  · exact ⟨h1, h2, h3, h4, h5, h6, by norm_num, by norm_num⟩
  · refine ⟨h1, h2, h3, h4, h5, h6, ?_, ?_⟩
    · exact Int.floor_nonneg.mpr (by nlinarith)
    · have hA2 : r - 0.5 <
          Real.sqrt ((x - cx) * (x - cx) + (y - cy) * (y - cy)) := not_le.mp hA
      have hlt : ⌊(r + 0.5 -
          Real.sqrt ((x - cx) * (x - cx) + (y - cy) * (y - cy))) * 255⌋ < (256 : Int) := by
        refine Int.floor_lt.mpr ?_
        push_cast
        nlinarith
      dsimp only
      omega
  · exact ⟨le_refl 0, by norm_num, le_refl 0, by norm_num, le_refl 0, by norm_num,
      le_refl 0, by norm_num⟩

theorem recordingPixel_inRange (x y : Nat) : inRange4 (recordingPixel x y) := by
  unfold recordingPixel
  exact circle_aa_inRange _ _ _ _ _ _ (by norm_num) (by norm_num) (by norm_num)
    (by norm_num) (by norm_num) (by norm_num)

theorem recordingPixel_corner : recordingPixel 0 0 = (0, 0, 0, 0) := by
  unfold recordingPixel circle_aa SIZE
  have harg : (((0 : Nat) : ℝ) - ((48 : Nat) : ℝ) / 2) * (((0 : Nat) : ℝ) - ((48 : Nat) : ℝ) / 2)
      + (((0 : Nat) : ℝ) - ((48 : Nat) : ℝ) / 2) * (((0 : Nat) : ℝ) - ((48 : Nat) : ℝ) / 2)
      = 1152 := by
    norm_num
  dsimp only
  rw [harg]
  have hgt : ¬ Real.sqrt 1152 ≤ ((48 : Nat) : ℝ) / 2 - 4 + 0.5 := by
    refine not_le.mpr ?_
    refine (Real.lt_sqrt (by norm_num)).mpr ?_
    norm_num
  have hgt2 : ¬ Real.sqrt 1152 ≤ ((48 : Nat) : ℝ) / 2 - 4 - 0.5 := by
    refine not_le.mpr ?_
    refine (Real.lt_sqrt (by norm_num)).mpr ?_
    norm_num
  rw [if_neg hgt2, if_neg hgt]

theorem recordingPixel_center : recordingPixel 24 24 = (220, 50, 50, 255) := by
  unfold recordingPixel circle_aa SIZE
  have harg : (((24 : Nat) : ℝ) - ((48 : Nat) : ℝ) / 2) * (((24 : Nat) : ℝ) - ((48 : Nat) : ℝ) / 2)
      + (((24 : Nat) : ℝ) - ((48 : Nat) : ℝ) / 2) * (((24 : Nat) : ℝ) - ((48 : Nat) : ℝ) / 2)
      = 0 := by
    norm_num
  dsimp only
  rw [harg, Real.sqrt_zero]
  have hle : (0 : ℝ) ≤ ((48 : Nat) : ℝ) / 2 - 4 - 0.5 := by norm_num
  rw [if_pos hle]

theorem idlePixel_inRange (x y : Nat) : inRange4 (idlePixel x y) := by
  unfold idlePixel
  dsimp only
  split
  · decide
  · decide

theorem pausedPixel_inRange (x y : Nat) : inRange4 (pausedPixel x y) := by
  unfold pausedPixel
  dsimp only
  split
  · decide
  · decide

/-! ### The claims -/

/-- C1: Round-trip fidelity.  For every width and height above 0 (and below
2 ^ 32, the range `struct.pack` accepts) and every pixel function returning
channels in [0, 255], the raw scanline loop produces exactly the spec-shaped
buffer, inflating the IDAT payload of `make_png` recovers that buffer, and
decoding the produced PNG at any valid coordinate returns exactly the four
channel bytes that the pixel function returned there.  The zlib pair is
abstract: any `inflate` inverting `deflate` on the buffer works. -/
theorem C1_round_trip_fidelity (deflate inflate : List Nat → List Nat)
    (width height : Nat) (f : Nat → Nat → Int × Int × Int × Int)
    (hw0 : 0 < width) (hh0 : 0 < height)
    (hw : width < 4294967296) (hh : height < 4294967296)
    (hr : ∀ x < width, ∀ y < height, inRange4 (f x y))
    (hbytes : ∀ b ∈ deflate (rawSpec width height f), b < 256)
    (hlen : (deflate (rawSpec width height f)).length < 4294967296)
    (hinv : inflate (deflate (rawSpec width height f)) = rawSpec width height f)
    (x y : Nat) (hx : x < width) (hy : y < height) :
    pngRaw width height f = some (rawSpec width height f) ∧
    (make_png deflate width height f).bind (decodePNG inflate)
      = some (width, height, rawSpec width height f) ∧
    (make_png deflate width height f).bind (fun s => decodePixel inflate s x y)
      = pyBytes4 (f x y) := by
  refine ⟨pngRaw_eq_rawSpec width height f hr, ?_, ?_⟩
  · rw [make_png_eq deflate width height f hr]
    simp only [Option.bind_eq_bind, Option.some_bind]
    rw [decodePNG_encode inflate deflate width height _ hw hh hbytes hlen, hinv]
  · rw [make_png_eq deflate width height f hr]
    simp only [Option.bind_eq_bind, Option.some_bind]
    rw [decodePixel_encode inflate deflate width height f x y hw hh hbytes hlen
      hinv hx hy, pyBytes4_some _ (hr x hx y hy)]

/-- Witness for C1 at a concrete instance: a 1 by 1 image with the constant
pixel (10, 20, 30, 40) and the identity as the zlib pair. -/
theorem C1_round_trip_fidelity_witness :
    (∀ x < 1, ∀ y < 1,
      inRange4 ((fun _ _ => ((10 : Int), (20 : Int), (30 : Int), (40 : Int))) x y)) ∧
    (∀ b ∈ id (rawSpec 1 1 (fun _ _ => ((10 : Int), 20, 30, 40))), b < 256) ∧
    id (id (rawSpec 1 1 (fun _ _ => ((10 : Int), 20, 30, 40))))
      = rawSpec 1 1 (fun _ _ => ((10 : Int), 20, 30, 40)) ∧
    (pngRaw 1 1 (fun _ _ => ((10 : Int), 20, 30, 40))
        = some (rawSpec 1 1 (fun _ _ => ((10 : Int), 20, 30, 40))) ∧
      (make_png id 1 1 (fun _ _ => ((10 : Int), 20, 30, 40))).bind (decodePNG id)
        = some (1, 1, rawSpec 1 1 (fun _ _ => ((10 : Int), 20, 30, 40))) ∧
      (make_png id 1 1 (fun _ _ => ((10 : Int), 20, 30, 40))).bind
          (fun s => decodePixel id s 0 0)
        = pyBytes4 ((10 : Int), 20, 30, 40)) :=
  ⟨by decide, by decide, rfl,
    C1_round_trip_fidelity id id 1 1 _ (by decide) (by decide) (by decide)
      (by decide) (by decide) (by decide) (by decide) rfl 0 0 (by decide)
      (by decide)⟩

/-- C2: Chunk serialization.  Every chunk built by `png_chunk` (in particular
the IHDR, IDAT and IEND chunks of `make_png`) serializes as the 4-byte
big-endian payload length, the 4-byte type tag, the payload, and the 4-byte
big-endian CRC-32 of the tag and payload together; a conformant chunk parser
accepts it and recovers the tag and payload, its CRC check succeeding. -/
theorem C2_chunk_serialization (name data rest : List Nat)
    (hname : name.length = 4) (hlen : data.length < 4294967296)
    (hbytes : ∀ b ∈ name ++ data, b < 256) :
    png_chunk name data
        = be32 data.length ++ name ++ data ++ be32 (crc32 (name ++ data)) ∧
    parseChunk (png_chunk name data ++ rest) = some ((name, data), rest) :=
  ⟨png_chunk_eq name data, parseChunk_png_chunk name data rest hname hlen hbytes⟩

/-- Witness for C2 at a concrete instance: the IEND chunk (zero-length
payload). -/
theorem C2_chunk_serialization_witness :
    (IENDtag.length = 4) ∧ (([] : List Nat).length < 4294967296) ∧
    (png_chunk IENDtag []
        = be32 ([] : List Nat).length ++ IENDtag ++ [] ++ be32 (crc32 (IENDtag ++ [])) ∧
      parseChunk (png_chunk IENDtag [] ++ []) = some ((IENDtag, []), [])) :=
  ⟨rfl, by decide,
    C2_chunk_serialization IENDtag [] [] rfl (by decide) (by decide)⟩

/-- C3: Overall stream structure.  For positive dimensions — below 2 ^ 32,
the range `struct.pack` accepts, and with a compressed payload short enough
for its 4-byte length field — and an in-range pixel function, `make_png`
succeeds and its output is exactly the 8-byte PNG signature followed by the
serialized IHDR, IDAT and IEND chunks in that order, with nothing before,
between, or after; in particular the output begins with the exact 8-byte
signature. -/
theorem C3_stream_structure (deflate : List Nat → List Nat) (width height : Nat)
    (f : Nat → Nat → Int × Int × Int × Int)
    (hw0 : 0 < width) (hh0 : 0 < height)
    (hw : width < 4294967296) (hh : height < 4294967296)
    (hlen : (deflate (rawSpec width height f)).length < 4294967296)
    (hr : ∀ x < width, ∀ y < height, inRange4 (f x y)) :
    make_png deflate width height f
      = some (pngSignature ++ png_chunk IHDRtag (ihdrPayload width height)
          ++ png_chunk IDATtag (deflate (rawSpec width height f))
          ++ png_chunk IENDtag []) ∧
    (make_png deflate width height f).map (fun s => s.take 8)
      = some pngSignature := by
  have h0 := make_png_eq deflate width height f hr
  refine ⟨h0, ?_⟩
  rw [h0]
  have hshape : pngSignature ++ png_chunk IHDRtag (ihdrPayload width height)
        ++ png_chunk IDATtag (deflate (rawSpec width height f))
        ++ png_chunk IENDtag []
      = pngSignature ++ (png_chunk IHDRtag (ihdrPayload width height)
          ++ (png_chunk IDATtag (deflate (rawSpec width height f))
            ++ png_chunk IENDtag [])) := by
    simp [List.append_assoc]
  rw [hshape, Option.map_some', List.take_left' (show pngSignature.length = 8 from rfl)]

/-- Witness for C3 at a concrete instance: a 1 by 1 image with the constant
pixel (1, 2, 3, 4) and the identity as compressor. -/
theorem C3_stream_structure_witness :
    (0 < 1) ∧ ((1 : Nat) < 4294967296) ∧
    ((id (rawSpec 1 1 (fun _ _ => ((1 : Int), 2, 3, 4)))).length < 4294967296) ∧
    (∀ x < 1, ∀ y < 1,
      inRange4 ((fun _ _ => ((1 : Int), (2 : Int), (3 : Int), (4 : Int))) x y)) ∧
    (make_png id 1 1 (fun _ _ => ((1 : Int), 2, 3, 4))
        = some (pngSignature ++ png_chunk IHDRtag (ihdrPayload 1 1)
            ++ png_chunk IDATtag (id (rawSpec 1 1 (fun _ _ => ((1 : Int), 2, 3, 4))))
            ++ png_chunk IENDtag []) ∧
      (make_png id 1 1 (fun _ _ => ((1 : Int), 2, 3, 4))).map (fun s => s.take 8)
        = some pngSignature) :=
  ⟨by decide, by decide, by decide, by decide,
    C3_stream_structure id 1 1 _ (by decide) (by decide) (by decide) (by decide)
      (by decide) (by decide)⟩

/-- C4: IHDR contents.  For every width and height in the range `struct.pack`
accepts, the IHDR payload is 13 bytes: the big-endian packing of width,
height, bit depth 8, color type 6, compression 0, filter 0, interlace 0; and
parsing it back recovers width, height, bit depth 8 and color type 6. -/
theorem C4_ihdr_contents (width height : Nat) (hw0 : 0 < width) (hh0 : 0 < height)
    (hw : width < 4294967296) (hh : height < 4294967296) :
    (ihdrPayload width height).length = 13 ∧
    ihdrPayload width height = be32 width ++ be32 height ++ [8, 6, 0, 0, 0] ∧
    parseIHDR (ihdrPayload width height) = some (width, height, 8, 6) := by
  refine ⟨rfl, rfl, ?_⟩
  unfold parseIHDR
  have hsplit : ihdrPayload width height
      = be32 width ++ (be32 height ++ [8, 6, 0, 0, 0]) := by
    simp [ihdrPayload, List.append_assoc]
  rw [hsplit, readBE32_be32 width hw]
  simp only [Option.bind_eq_bind, Option.some_bind]
  rw [readBE32_be32 height hh]
  simp

/-- Witness for C4 at a concrete instance: the 48 by 48 dimensions used by
the icon generators. -/
theorem C4_ihdr_contents_witness :
    (0 < 48) ∧ (48 < 4294967296) ∧
    ((ihdrPayload 48 48).length = 13 ∧
      ihdrPayload 48 48 = be32 48 ++ be32 48 ++ [8, 6, 0, 0, 0] ∧
      parseIHDR (ihdrPayload 48 48) = some (48, 48, 8, 6)) :=
  ⟨by decide, by decide,
    C4_ihdr_contents 48 48 (by decide) (by decide) (by decide) (by decide)⟩

/-- C5: Scanline assembly.  For positive dimensions and an in-range pixel
function, the raw buffer built by the loop of `make_png` is exactly the
spec-shaped buffer: it has length `height * (1 + 4 * width)` and consists,
row by row, of one filter-type byte 0 followed by the four channel bytes of
each pixel in order red, green, blue, alpha; the four bytes of pixel (x, y)
sit at offset `y * (1 + 4 * width) + 1 + 4 * x`. -/
theorem C5_scanline_assembly (width height : Nat)
    (f : Nat → Nat → Int × Int × Int × Int)
    (hw0 : 0 < width) (hh0 : 0 < height)
    (hr : ∀ x < width, ∀ y < height, inRange4 (f x y)) :
    pngRaw width height f = some (rawSpec width height f) ∧
    (rawSpec width height f).length = height * (1 + 4 * width) ∧
    ∀ x y, x < width → y < height →
      ((rawSpec width height f).drop (y * (1 + 4 * width) + 1 + 4 * x)).take 4
        = bytes4 (f x y) :=
  ⟨pngRaw_eq_rawSpec width height f hr, rawSpec_length width height f,
    fun x y hx hy => rawSpec_pixel width height f x y hx hy⟩

/-- Witness for C5 at a concrete instance: a 2 by 1 image with pixels
(1, 2, 3, 4) and (5, 6, 7, 8). -/
theorem C5_scanline_assembly_witness :
    (0 < 2) ∧
    (∀ x < 2, ∀ y < 1, inRange4
      ((fun x _ => if x = 0 then ((1 : Int), (2 : Int), (3 : Int), (4 : Int))
        else ((5 : Int), (6 : Int), (7 : Int), (8 : Int))) x y)) ∧
    (pngRaw 2 1 (fun x _ => if x = 0 then ((1 : Int), 2, 3, 4) else (5, 6, 7, 8))
        = some (rawSpec 2 1
            (fun x _ => if x = 0 then ((1 : Int), 2, 3, 4) else (5, 6, 7, 8))) ∧
      (rawSpec 2 1 (fun x _ => if x = 0 then ((1 : Int), 2, 3, 4) else (5, 6, 7, 8))).length
        = 1 * (1 + 4 * 2) ∧
      ∀ x y, x < 2 → y < 1 →
        ((rawSpec 2 1 (fun x _ => if x = 0 then ((1 : Int), 2, 3, 4) else (5, 6, 7, 8))).drop
            (y * (1 + 4 * 2) + 1 + 4 * x)).take 4
          = bytes4 ((fun x _ => if x = 0 then ((1 : Int), 2, 3, 4) else (5, 6, 7, 8)) x y)) :=
  ⟨by decide, by decide,
    C5_scanline_assembly 2 1 _ (by decide) (by decide) (by decide)⟩

/-- C6: Determinism.  `make_png` is a pure function of its inputs: with the
same compressor and dimensions, two pixel functions that agree on every valid
coordinate give byte-identical outputs (so two calls with identical inputs
always produce the same bytes). -/
theorem C6_determinism (deflate : List Nat → List Nat) (width height : Nat)
    (f g : Nat → Nat → Int × Int × Int × Int)
    (hfg : ∀ x < width, ∀ y < height, f x y = g x y) :
    make_png deflate width height f = make_png deflate width height g := by
  unfold make_png
  rw [pngRaw_congr width height f g hfg]

/-- Witness for C6 at a concrete instance: two syntactically different pixel
functions with the same values. -/
theorem C6_determinism_witness :
    (∀ x < 3, ∀ y < 3,
      (fun _ _ => ((1 : Int), (2 : Int), (3 : Int), (4 : Int))) x y
        = (fun _ _ => ((1 : Int), (2 : Int), (3 : Int), (2 + 2 : Int))) x y) ∧
    make_png id 3 3 (fun _ _ => ((1 : Int), 2, 3, 4))
      = make_png id 3 3 (fun _ _ => ((1 : Int), 2, 3, 2 + 2)) :=
  ⟨by decide, C6_determinism id 3 3 _ _ (by decide)⟩

/-- C7: Recording-icon scenario.  The 48 by 48 pixel function of
`make_recording` returns the fully transparent quadruple at (0, 0) and fully
opaque red (220, 50, 50, 255) at the centre (24, 24); consequently the PNG
produced by `make_recording` decodes to those pixel values at those
coordinates (for any inflate inverting the compressor on the buffer). -/
theorem C7_recording_icon_scenario (deflate inflate : List Nat → List Nat)
    (hbytes : ∀ b ∈ deflate (rawSpec SIZE SIZE recordingPixel), b < 256)
    (hlen : (deflate (rawSpec SIZE SIZE recordingPixel)).length < 4294967296)
    (hinv : inflate (deflate (rawSpec SIZE SIZE recordingPixel))
      = rawSpec SIZE SIZE recordingPixel) :
    recordingPixel 0 0 = (0, 0, 0, 0) ∧
    recordingPixel 24 24 = (220, 50, 50, 255) ∧
    (make_recording deflate).bind (fun s => decodePixel inflate s 0 0)
      = some [0, 0, 0, 0] ∧
    (make_recording deflate).bind (fun s => decodePixel inflate s 24 24)
      = some [220, 50, 50, 255] := by
  have hr : ∀ x < SIZE, ∀ y < SIZE, inRange4 (recordingPixel x y) :=
    fun x _ y _ => recordingPixel_inRange x y
  refine ⟨recordingPixel_corner, recordingPixel_center, ?_, ?_⟩
  · unfold make_recording
    rw [make_png_eq deflate SIZE SIZE recordingPixel hr]
    rw [Option.some_bind]
    rw [decodePixel_encode inflate deflate SIZE SIZE recordingPixel 0 0
      (by norm_num [SIZE]) (by norm_num [SIZE]) hbytes hlen hinv
      (by norm_num [SIZE]) (by norm_num [SIZE])]
    rw [recordingPixel_corner]
    rfl
  · unfold make_recording
    rw [make_png_eq deflate SIZE SIZE recordingPixel hr]
    rw [Option.some_bind]
    rw [decodePixel_encode inflate deflate SIZE SIZE recordingPixel 24 24
      (by norm_num [SIZE]) (by norm_num [SIZE]) hbytes hlen hinv
      (by norm_num [SIZE]) (by norm_num [SIZE])]
    rw [recordingPixel_center]
    rfl

/-- Witness for C7: the identity as the zlib pair. -/
theorem C7_recording_icon_scenario_witness :
    id (id (rawSpec SIZE SIZE recordingPixel)) = rawSpec SIZE SIZE recordingPixel ∧
    (recordingPixel 0 0 = (0, 0, 0, 0) ∧
      recordingPixel 24 24 = (220, 50, 50, 255) ∧
      (make_recording id).bind (fun s => decodePixel id s 0 0) = some [0, 0, 0, 0] ∧
      (make_recording id).bind (fun s => decodePixel id s 24 24)
        = some [220, 50, 50, 255]) :=
  ⟨rfl,
    C7_recording_icon_scenario id id
      (rawSpec_bytes_lt SIZE SIZE recordingPixel
        (fun x _ y _ => recordingPixel_inRange x y))
      (by rw [show (id (rawSpec SIZE SIZE recordingPixel)).length
            = (rawSpec SIZE SIZE recordingPixel).length from rfl,
          rawSpec_length]; norm_num [SIZE])
      rfl⟩

/-- C8: Failure on out-of-range channels.  If the pixel function returns, at
some valid coordinate, a quadruple with a channel outside [0, 255], then the
per-pixel `bytes([...])` conversion raises and `make_png` produces no output
(no value is ever wrapped modulo 256 into a PNG). -/
theorem C8_out_of_range_rejected (deflate : List Nat → List Nat)
    (width height : Nat) (f : Nat → Nat → Int × Int × Int × Int) (x0 y0 : Nat)
    (hx : x0 < width) (hy : y0 < height) (hbad : ¬ inRange4 (f x0 y0)) :
    make_png deflate width height f = none := by
  unfold make_png
  rw [pngRaw_none width height f x0 y0 hx hy hbad]
  rfl

/-- Witness for C8 at a concrete instance: a constant pixel with red channel
300. -/
theorem C8_out_of_range_rejected_witness :
    (0 : Nat) < 1 ∧
    ¬ inRange4 ((300 : Int), (0 : Int), (0 : Int), (0 : Int)) ∧
    make_png id 1 1 (fun _ _ => ((300 : Int), 0, 0, 0)) = none :=
  ⟨by decide, by decide,
    C8_out_of_range_rejected id 1 1 _ 0 0 (by decide) (by decide) (by decide)⟩

/-- C9: Degenerate dimensions accepted.  `make_png` performs no validation of
its dimensions: with width 0 or height 0 (the other dimension, and the
compressed payload length, staying below 2 ^ 32, the range `struct.pack`
accepts) it still returns the signature and the three chunks, the IHDR
payload recording the zero dimension, and the IDAT payload being the
compression of the corresponding scanline buffer — one filter byte per row
when width is 0, the empty buffer when height is 0. -/
theorem C9_degenerate_dimensions (deflate : List Nat → List Nat)
    (width height : Nat) (f : Nat → Nat → Int × Int × Int × Int)
    (hw : width < 4294967296) (hh : height < 4294967296)
    (hlen0 : (deflate (List.replicate height 0)).length < 4294967296)
    (hlen1 : (deflate []).length < 4294967296) :
    make_png deflate 0 height f
      = some (pngSignature ++ png_chunk IHDRtag (ihdrPayload 0 height)
          ++ png_chunk IDATtag (deflate (List.replicate height 0))
          ++ png_chunk IENDtag []) ∧
    make_png deflate width 0 f
      = some (pngSignature ++ png_chunk IHDRtag (ihdrPayload width 0)
          ++ png_chunk IDATtag (deflate []) ++ png_chunk IENDtag []) := by
  constructor
  · have h0 := make_png_eq deflate 0 height f
      (fun x hx => absurd hx (Nat.not_lt_zero x))
    rwa [rawSpec_width_zero] at h0
  · have h0 := make_png_eq deflate width 0 f
      (fun x hx y hy => absurd hy (Nat.not_lt_zero y))
    rwa [rawSpec_height_zero] at h0

/-- Witness for C9 at a concrete instance: the 3 by 3 dimensions, a constant
pixel function and the identity as compressor. -/
theorem C9_degenerate_dimensions_witness :
    ((3 : Nat) < 4294967296) ∧
    ((id (List.replicate 3 (0 : Nat))).length < 4294967296) ∧
    ((id ([] : List Nat)).length < 4294967296) ∧
    (make_png id 0 3 (fun _ _ => ((1 : Int), 2, 3, 4))
        = some (pngSignature ++ png_chunk IHDRtag (ihdrPayload 0 3)
            ++ png_chunk IDATtag (id (List.replicate 3 0))
            ++ png_chunk IENDtag []) ∧
      make_png id 3 0 (fun _ _ => ((1 : Int), 2, 3, 4))
        = some (pngSignature ++ png_chunk IHDRtag (ihdrPayload 3 0)
            ++ png_chunk IDATtag (id []) ++ png_chunk IENDtag [])) :=
  ⟨by decide, by decide, by decide,
    C9_degenerate_dimensions id 3 3 _ (by decide) (by decide) (by decide)
      (by decide)⟩

/-- C10: The three icon samplers satisfy the encoder's precondition.  Each of
the pixel functions of `make_idle`, `make_recording` and `make_paused`
returns four integer channels in [0, 255] at every coordinate of the 48 by 48
grid (the anti-aliased alpha of `circle_aa` included), so the out-of-range
error branch of `make_png` is unreachable and all three generators succeed. -/
theorem C10_samplers_in_range (deflate : List Nat → List Nat) (x y : Nat)
    (hx : x < 48) (hy : y < 48) :
    inRange4 (idlePixel x y) ∧ inRange4 (recordingPixel x y) ∧
    inRange4 (pausedPixel x y) ∧
    (make_idle deflate).isSome = true ∧
    (make_recording deflate).isSome = true ∧
    (make_paused deflate).isSome = true := by
  refine ⟨idlePixel_inRange x y, recordingPixel_inRange x y,
    pausedPixel_inRange x y, ?_, ?_, ?_⟩
  · unfold make_idle
    rw [make_png_eq deflate SIZE SIZE idlePixel (fun a _ b _ => idlePixel_inRange a b)]
    rfl
  · unfold make_recording
    rw [make_png_eq deflate SIZE SIZE recordingPixel
      (fun a _ b _ => recordingPixel_inRange a b)]
    rfl
  · unfold make_paused
    rw [make_png_eq deflate SIZE SIZE pausedPixel
      (fun a _ b _ => pausedPixel_inRange a b)]
    rfl

/-- Witness for C10 at a concrete instance: coordinate (0, 0) and the
identity compressor. -/
theorem C10_samplers_in_range_witness :
    (0 : Nat) < 48 ∧
    (inRange4 (idlePixel 0 0) ∧ inRange4 (recordingPixel 0 0) ∧
      inRange4 (pausedPixel 0 0) ∧
      (make_idle id).isSome = true ∧ (make_recording id).isSome = true ∧
      (make_paused id).isSome = true) :=
  ⟨by decide, C10_samplers_in_range id 0 0 (by decide) (by decide)⟩

end GenerateIcons
